import Mathlib

/-
Verification of the Vocapy subtitle-vocabulary pipeline.

The repository contains two variants of the same pipeline:
  * `ScriptVocab.py` — module-level functions (legacy CLI variant), embedded
    here as top-level definitions;
  * `script_vocab/script_vocab.py` — the `ScriptVocab` class, embedded here
    in the `ScriptVocab` namespace.

Python strings are modelled as `List Char` (ASCII fragment of Python `str`
semantics: `str.strip`, `str.isnumeric`, `str.lower`, the regexes
`^\d\{1,2\}:\d\{2\}:\d\{2\},\d\{3\}`, `[a-zA-Z]`, `\b\w+\b` and `<.*?>` are
all translated at the character level).  Python `dict` (insertion ordered)
is modelled as an association list `List (α × β)` with update-in-place /
append-new semantics.  The external translation service is modelled as an
oracle `Nat → List Char → Except (List Char) (List Char)` mapping the index
of the call and the request payload to a response or a failure, and the
side effects that matter to the specification (service calls, retry backoff
waits, rate-limit pacing waits) are recorded in an explicit `TransLog`
state that every translation function threads through.
-/

/-- Shorthand for quoting concrete Python strings in statements. -/
def str (s : String) : List Char := s.data

/-- Python whitespace (ASCII fragment), as used by `str.strip`. -/
def pySpace (c : Char) : Bool :=
  c == ' ' || c == '\t' || c == '\n' || c == '\r' || c == '\x0b' || c == '\x0c'

/-- Python `str.lstrip()` on the ASCII fragment. -/
def pyLstrip (l : List Char) : List Char := l.dropWhile pySpace

/-- Python `str.rstrip()` on the ASCII fragment. -/
def pyRstrip (l : List Char) : List Char := (l.reverse.dropWhile pySpace).reverse

/-- Python `str.strip()` on the ASCII fragment. -/
def pyStrip (l : List Char) : List Char := pyRstrip (pyLstrip l)

/-- Python `str.isnumeric()` on the ASCII fragment: nonempty and all digits. -/
def pyIsNumeric (l : List Char) : Bool := !l.isEmpty && l.all Char.isDigit

/-- Python `str.split(sep)` for a one-character separator: always returns at
least one (possibly empty) field. -/
def pySplit (sep : Char) : List Char → List (List Char)
  | [] => [[]]
  | c :: cs =>
    match pySplit sep cs with
    | [] => [[c]]
    | h :: t => if c == sep then [] :: h :: t else (c :: h) :: t

/-- Python `sep.join(xs)`. -/
def pyJoin (sep : List Char) (xs : List (List Char)) : List Char :=
  List.intercalate sep xs

/-- Python `str.lower()` on a single character (ASCII fragment). -/
def lowerChar (c : Char) : Char :=
  if c == 'A' then 'a' else if c == 'B' then 'b' else if c == 'C' then 'c'
  else if c == 'D' then 'd' else if c == 'E' then 'e' else if c == 'F' then 'f'
  else if c == 'G' then 'g' else if c == 'H' then 'h' else if c == 'I' then 'i'
  else if c == 'J' then 'j' else if c == 'K' then 'k' else if c == 'L' then 'l'
  else if c == 'M' then 'm' else if c == 'N' then 'n' else if c == 'O' then 'o'
  else if c == 'P' then 'p' else if c == 'Q' then 'q' else if c == 'R' then 'r'
  else if c == 'S' then 's' else if c == 'T' then 't' else if c == 'U' then 'u'
  else if c == 'V' then 'v' else if c == 'W' then 'w' else if c == 'X' then 'x'
  else if c == 'Y' then 'y' else if c == 'Z' then 'z' else c

/-- Python `str.lower()` on the ASCII fragment. -/
def pyLower (l : List Char) : List Char := l.map lowerChar

/-- A word character of the regex `\w` (ASCII fragment): letter, digit or
underscore. -/
def wordChar (c : Char) : Bool := c.isAlphanum || c == '_'

/-- `re.findall(r"\b\w+\b", text)`: the maximal runs of word characters, in
left-to-right order. -/
def wordRuns : List Char → List (List Char)
  | [] => []
  | c :: cs =>
    if wordChar c then
      (c :: cs.takeWhile wordChar) :: wordRuns (cs.dropWhile wordChar)
    else
      wordRuns cs
termination_by l => l.length
decreasing_by
  · simp only [List.length_cons]
    exact Nat.lt_succ_of_le (List.dropWhile_sublist wordChar).length_le
  · simp

/-- Scanner for `re.sub("<.*?>", "", line)`.  `buf = some b` means the scan
is inside a candidate match that started at a `<` (with `b` the characters
consumed since, `<` included).  A match ends at the first later `>`; `.`
does not cross a newline, so a newline kills the candidate and its buffered
characters are emitted unchanged (every `<` inside the buffer also meets
that newline before any `>`, so none of them can start a match either); a
candidate still open at the end of the input is likewise emitted. -/
def stripTagsGo : List Char → Option (List Char) → List Char
  | [], none => []
  | [], some buf => buf
  | c :: cs, none =>
    if c == '<' then stripTagsGo cs (some ['<']) else c :: stripTagsGo cs none
  | c :: cs, some buf =>
    if c == '>' then stripTagsGo cs none
    else if c == '\n' then buf ++ '\n' :: stripTagsGo cs none
    else stripTagsGo cs (some (buf ++ [c]))

/-- `re.sub("<.*?>", "", line)`: delete every non-greedy `<...>` group; an
unmatched `<` is left in place. -/
def stripTags (l : List Char) : List Char := stripTagsGo l none

/-- The tail of the timestamp regex after the leading digits:
`:\d\{2\}:\d\{2\},\d\{3\}`. -/
def tsTail : List Char → Bool
  | c0 :: m1 :: m2 :: c3 :: s1 :: s2 :: c6 :: x1 :: x2 :: x3 :: _ =>
    c0 == ':' && m1.isDigit && m2.isDigit && c3 == ':' && s1.isDigit &&
      s2.isDigit && c6 == ',' && x1.isDigit && x2.isDigit && x3.isDigit
  | _ => false

/-- Helper for the two-digit hour alternative of the timestamp regex. -/
def tsTail2 : List Char → Bool
  | c2 :: rest2 => c2.isDigit && tsTail rest2
  | [] => false

/-- `re.match(r"^\d\{1,2\}:\d\{2\}:\d\{2\},\d\{3\}", line)`: the anchored
timestamp pattern, with the regex backtracking between a one-digit and a
two-digit hour field. -/
def is_time_stamp (l : List Char) : Bool :=
  match l with
  | c1 :: rest => c1.isDigit && (tsTail rest || tsTail2 rest)
  | [] => false

/-- Spec-side shape of a timestamp at the start of a line, used to compare
the regex matcher with the specification's wording: 1-2 digits, a colon,
2 digits, a colon, 2 digits, a comma, 3 digits, then anything. -/
def TimestampAtStart (l : List Char) : Prop :=
  ∃ hh mm ss ms rest : List Char,
    (hh.length = 1 ∨ hh.length = 2) ∧ (∀ c ∈ hh, c.isDigit = true) ∧
    mm.length = 2 ∧ (∀ c ∈ mm, c.isDigit = true) ∧
    ss.length = 2 ∧ (∀ c ∈ ss, c.isDigit = true) ∧
    ms.length = 3 ∧ (∀ c ∈ ms, c.isDigit = true) ∧
    l = hh ++ [':'] ++ mm ++ [':'] ++ ss ++ [','] ++ ms ++ rest

/-- `re.search("[a-zA-Z]", line)`: the line contains an ASCII letter. -/
def has_letters (l : List Char) : Bool := l.any Char.isAlpha

/-- `ScriptVocab.has_no_text` (and the identical module-level `has_no_text`):
the trimmed line is empty, numeric, timestamp-led, or letter-free. -/
def has_no_text (line : List Char) : Bool :=
  let line := pyStrip line
  line.isEmpty || pyIsNumeric line || is_time_stamp line || !has_letters line

/-- `is_lowercase_letter_or_comma(char)`: an already-lowercase letter, or a
comma (shared by both variants). -/
def is_lowercase_letter_or_comma (c : Char) : Bool :=
  (c.isAlpha && lowerChar c == c) || c == ','

/-- `line[0]` guarded test used by both cleanup variants; both only reach it
on lines that passed `has_no_text`, which are nonempty. -/
def headIsLowerOrComma (l : List Char) : Bool :=
  match l with
  | [] => false
  | c :: _ => is_lowercase_letter_or_comma c

/-- Loop body of the module-level `clean_up` of `ScriptVocab.py`: skip
non-content lines, merge a continuation line into the previous kept line
(`new_lines[-1] = f"\x7bnew_lines[-1].strip()\x7d \x7bline\x7d"`), otherwise
append the tag-stripped line. -/
def clean_up_go : List (List Char) → List (List Char) → List (List Char)
  | [], acc => acc
  | line :: rest, acc =>
    if has_no_text line then clean_up_go rest acc
    else if !acc.isEmpty && headIsLowerOrComma line then
      clean_up_go rest (acc.dropLast ++ [pyStrip (acc.getLastD []) ++ ' ' :: line])
    else
      clean_up_go rest (acc ++ [stripTags line])

/-- Module-level `clean_up(lines)` of `ScriptVocab.py`: iterates over
`lines[1:]`. -/
def clean_up (lines : List (List Char)) : List (List Char) :=
  clean_up_go (lines.drop 1) []

/-- Module-level `create_word_list_from_text(text)` of `ScriptVocab.py`:
word-character runs that pass the content check (no lowering, no length
bound in this variant). -/
def create_word_list_from_text (text : List Char) : List (List Char) :=
  (wordRuns text).filter (fun w => !has_no_text w)

/-- One `d[w] = d.get(w, 0) + 1` step of `collections.Counter`. -/
def bump : List (List Char × Nat) → List Char → List (List Char × Nat)
  | [], w => [(w, 1)]
  | (k, v) :: d, w => if k = w then (k, v + 1) :: d else (k, v) :: bump d w

/-- `collections.Counter(words)`: counts with first-occurrence iteration
order. -/
def counter (ws : List (List Char)) : List (List Char × Nat) :=
  ws.foldl bump []

/-- Association-list lookup, used only to state and prove properties of
`counter` and of the Python-dict operations. -/
def alGet {β : Type} : List (List Char × β) → List Char → Option β
  | [], _ => none
  | (k, v) :: d, x => if k = x then some v else alGet d x

/-- The comparator of `sorted(word_counts.items(), key=lambda item: item[1],
reverse=True)`: descending by count. -/
def descBySnd (a b : List Char × Nat) : Prop := b.2 ≤ a.2

instance : DecidableRel descBySnd := fun a b => Nat.decLe b.2 a.2

instance : IsTotal (List Char × Nat) descBySnd :=
  ⟨fun a b => (Nat.le_total b.2 a.2).imp id id⟩

instance : IsTrans (List Char × Nat) descBySnd :=
  ⟨fun _ _ _ h1 h2 => Nat.le_trans h2 h1⟩

/-- `create_dictionary(words, min_appearance)` (identical in both variants):
count, filter by the threshold, and sort by count descending.  Python's
`sorted` is a stable sort, so it is modelled by the (stable) insertion
sort. -/
def create_dictionary (words : List (List Char)) (min_appearance : Nat) :
    List (List Char × Nat) :=
  List.insertionSort descBySnd
    ((counter words).filter (fun item => min_appearance ≤ item.2))

/-- Python dict assignment `d[k] = v` on an insertion-ordered association
list: overwrite in place, or append a new key at the end. -/
def pyDictSet {β : Type} : List (List Char × β) → List Char → β → List (List Char × β)
  | [], k, v => [(k, v)]
  | (k0, v0) :: d, k, v =>
    if k0 = k then (k0, v) :: d else (k0, v0) :: pyDictSet d k v

/-- Python `d1.update(d2)`. -/
def pyDictUpdate {β : Type} (d1 d2 : List (List Char × β)) : List (List Char × β) :=
  d2.foldl (fun d p => pyDictSet d p.1 p.2) d1

/-- Python `dict(pairs)`. -/
def pyDictOf {β : Type} (pairs : List (List Char × β)) : List (List Char × β) :=
  pyDictUpdate [] pairs

/-- Python `d.get(k, dflt)`. -/
def pyDictGetD {β : Type} : List (List Char × β) → List Char → β → β
  | [], _, dflt => dflt
  | (k0, v0) :: d, k, dflt => if k0 = k then v0 else pyDictGetD d k dflt

/-- A two-word chunk's contribution `dict(zip(chunk, response.split("\n")))`
to the translation map, used to state the batching property. -/
def chunkDict (a b : List Char) (resp : List Char) : List (List Char × List Char) :=
  pyDictOf (List.zip [a, b] (pySplit '\n' resp))

/-- The observable side effects of the translation client: the payload of
each service call in order, the number of retry backoff waits
(`time.sleep(wait_time)` after a failed attempt), and the number of
rate-limit pacing waits (the other `time.sleep` call sites). -/
structure TransLog where
  calls : List (List Char)
  backoffs : Nat
  pacings : Nat
deriving DecidableEq

/-- The log before any translation work. -/
def TransLog.init : TransLog := ⟨[], 0, 0⟩

/-- The external translation service, as an oracle from the index of the
call (how many service calls happened before) and the newline-joined
request payload to a response payload or a failure. -/
def Service : Type := Nat → List Char → Except (List Char) (List Char)

/-- The two-attempt block of the module-level `translate_dictionary` of
`ScriptVocab.py` for one chunk's newline-joined payload: on a first failure
one backoff wait, then a second attempt; on a second failure the error is
only printed and the loop keeps the initial empty response string. -/
def old_attempt (service : Service) (text : List Char) (log : TransLog) :
    List Char × TransLog :=
  match service log.calls.length text with
  | .ok out => (out, { log with calls := log.calls ++ [text] })
  | .error _ =>
    let logb := { log with calls := log.calls ++ [text],
                           backoffs := log.backoffs + 1 }
    match service logb.calls.length text with
    | .ok out => (out, { logb with calls := logb.calls ++ [text] })
    | .error _ => ([], { logb with calls := logb.calls ++ [text] })

/-- Loop body of the module-level `translate_dictionary` of `ScriptVocab.py`
over one chunk of at most 100 words: pacing wait before every chunk but the
first, then the two-attempt block, then `dict(zip(chunk,
output.split("\n")))` merged into the accumulator — a chunk whose both
attempts failed pairs its first word with the empty string. -/
def translate_dictionary_go (service : Service) :
    List (List Char) → Bool → List (List Char × List Char) → TransLog →
      List (List Char × List Char) × TransLog
  | [], _, td, log => (td, log)
  | w :: ws, first, td, log =>
    let log1 := if first then log else { log with pacings := log.pacings + 1 }
    let chunk := (w :: ws).take 100
    let out2 := old_attempt service (pyJoin (str "\n") chunk) log1
    let translated_words := pySplit '\n' out2.1
    translate_dictionary_go service ((w :: ws).drop 100) false
      (pyDictUpdate td (pyDictOf (chunk.zip translated_words))) out2.2
termination_by ws => ws.length
decreasing_by
  simp only [List.length_drop, List.length_cons]
  omega

/-- Module-level `translate_dictionary(input_dict, input_lang, target_lang)`
of `ScriptVocab.py`: chunks of the hard-coded size 100, pacing wait before
every chunk except the first. -/
def translate_dictionary (service : Service) (input_dict : List (List Char × Nat))
    (log : TransLog) : List (List Char × List Char) × TransLog :=
  translate_dictionary_go service (input_dict.map Prod.fst) true [] log

namespace ScriptVocab

/-- `ScriptVocab.has_no_text`: same predicate as the module-level variant. -/
def has_no_text (line : List Char) : Bool :=
  let line := pyStrip line
  line.isEmpty || pyIsNumeric line || is_time_stamp line || !has_letters line

/-- `ScriptVocab.create_word_list_from_text(text, min_word_size)`: lowered
word-character runs that pass the content check and the length bound. -/
def create_word_list_from_text (text : List Char) (min_word_size : Nat) :
    List (List Char) :=
  ((wordRuns text).filter
    (fun w => !has_no_text w && decide (min_word_size ≤ w.length))).map pyLower

/-- One step of the merge loop of `ScriptVocab.clean_up`: evaluate
`cleaner_lines[i][0]` (an out-of-bounds access is `none`, as in Python it
raises `IndexError`) and, on a continuation line, perform
`cleaner_lines[i - 1] += " " + cleaner_lines.pop(i)`. -/
def clean_up_step (i : Nat) (l : List (List Char)) : Option (List (List Char)) :=
  match l.get? i with
  | none => none
  | some s =>
    match s with
    | [] => none
    | c :: _ =>
      if is_lowercase_letter_or_comma c then
        some ((l.set (i - 1) (l.getD (i - 1) [] ++ ' ' :: s)).eraseIdx i)
      else
        some l

/-- `ScriptVocab.clean_up(lines)`: filter and tag-strip the lines, then run
the merge loop for `i in range(1, len(cleaner_lines))` — the range is fixed
before the loop while `pop(i)` shortens the list, so an access can go out
of bounds (`none`). -/
def clean_up (lines : List (List Char)) : Option (List (List Char)) :=
  let cleaner_lines :=
    (lines.filter (fun line => !has_no_text line)).map
      (fun line => pyRstrip (stripTags line))
  (List.range' 1 (cleaner_lines.length - 1)).foldl
    (fun st i => st.bind (clean_up_step i)) (some cleaner_lines)

/-- `ScriptVocab.translate_text(chunk, input_lang, target_lang)`: when
online, join the chunk with newlines, call the service once and split the
response on newlines; any service failure is re-raised as
`ExternalTranslationError("Translation failed")`.  When offline, every word
of the chunk becomes the placeholder string without any service call. -/
def translate_text (online : Bool) (service : Service) (chunk : List (List Char))
    (log : TransLog) : Except (List Char) (List (List Char)) × TransLog :=
  if online then
    let payload := pyJoin (str "\n") chunk
    match service log.calls.length payload with
    | .ok out =>
      (.ok (pySplit '\n' out), { log with calls := log.calls ++ [payload] })
    | .error _ =>
      (.error (str "Translation failed"), { log with calls := log.calls ++ [payload] })
  else
    (.ok (chunk.map fun _ => str "placeholder"), log)

/-- `ScriptVocab.translate_chunk(chunk, input_lang, target_lang, wait_time)`:
two attempts; after a first failure one backoff wait
(`time.sleep(wait_time)`), and a second failure raises the persistent
`ExternalTranslationError(f"Translation failed, error: \x7be\x7d\nTry again
later.")` to the caller. -/
def translate_chunk (online : Bool) (service : Service) (chunk : List (List Char))
    (log : TransLog) : Except (List Char) (List (List Char)) × TransLog :=
  match translate_text online service chunk log with
  | (.ok r, log1) => (.ok r, log1)
  | (.error _, log1) =>
    let log2 := { log1 with backoffs := log1.backoffs + 1 }
    match translate_text online service chunk log2 with
    | (.ok r, log3) => (.ok r, log3)
    | (.error e2, log3) =>
      (.error (str "Translation failed, error: " ++ e2 ++ str "\nTry again later."),
        log3)

/-- `ScriptVocab.convert_to_chunks(words_list, chunk_size)`: the consecutive
slices `words_list[i : i + chunk_size]` for `i in range(0, len(words_list),
chunk_size)` (`chunk_size = 0` would make Python's `range` raise before
producing anything). -/
def convert_to_chunks : List (List Char) → Nat → List (List (List Char))
  | _, 0 => []
  | l, k + 1 =>
    if l.isEmpty then [] else l.take (k + 1) :: convert_to_chunks (l.drop (k + 1)) (k + 1)
termination_by l => l.length
decreasing_by
  rename_i h
  have hl : l ≠ [] := by simpa [List.isEmpty_iff] using h
  have hpos : 0 < l.length := List.length_pos.mpr hl
  simp only [List.length_drop]
  omega

/-- Loop of `ScriptVocab.translate_dictionary` over the chunks: translate a
chunk (any persistent failure propagates to the caller), merge
`dict(zip(chunk, translated_words))` into the accumulated dictionary, and
then always perform the rate-limiter wait `time.sleep(2)` — after every
chunk, including the last. -/
def translate_dictionary_go (online : Bool) (service : Service) :
    List (List (List Char)) → List (List Char × List Char) → TransLog →
      Except (List Char) (List (List Char × List Char)) × TransLog
  | [], td, log => (.ok td, log)
  | chunk :: rest, td, log =>
    match translate_chunk online service chunk log with
    | (.error e, log1) => (.error e, log1)
    | (.ok tw, log1) =>
      translate_dictionary_go online service rest
        (pyDictUpdate td (pyDictOf (chunk.zip tw)))
        { log1 with pacings := log1.pacings + 1 }

/-- `ScriptVocab.translate_dictionary(dictionary, source_language,
target_language, chunk_size)`. -/
def translate_dictionary (online : Bool) (service : Service)
    (dictionary : List (List Char × Nat)) (chunk_size : Nat) (log : TransLog) :
    Except (List Char) (List (List Char × List Char)) × TransLog :=
  translate_dictionary_go online service
    (convert_to_chunks (dictionary.map Prod.fst) chunk_size) [] log

/-- `ScriptVocab.create_dictionary(words, min_appearance)`: same code as the
module-level variant. -/
def create_dictionary (words : List (List Char)) (min_appearance : Nat) :
    List (List Char × Nat) :=
  List.insertionSort descBySnd
    ((counter words).filter (fun item => min_appearance ≤ item.2))

/-- The output-row construction of `ScriptVocab.run`: one
`f"\x7bcount\x7d, \x7bword\x7d, \x7btranslation\x7d"` row per frequency-map
entry, in the frequency map's iteration order, the translation defaulting
to the empty string (`translated_dict.get(word, "")`). -/
def run_output (words_dict : List (List Char × Nat))
    (translated_dict : List (List Char × List Char)) : List (List Char) :=
  words_dict.map fun wc =>
    Nat.toDigits 10 wc.2 ++ str ", " ++ wc.1 ++ str ", " ++
      pyDictGetD translated_dict wc.1 []

/-- One entry of the structured output of `ScriptVocab.get_output_as_json`. -/
structure OutRecord where
  occurrences : List Char
  original_text : List Char
  translated_text : List Char
deriving DecidableEq

/-- `ScriptVocab.get_output_as_json()`: split every output row on `","`; a
row with a field count other than three makes the whole conversion return
`None`, otherwise each row becomes a record of its three stripped fields. -/
def get_output_as_json : List (List Char) → Option (List OutRecord)
  | [] => some []
  | line :: rest =>
    let line_items := pySplit ',' line
    if line_items.length ≠ 3 then none
    else
      match get_output_as_json rest with
      | none => none
      | some rs =>
        some (⟨pyStrip (line_items.getD 0 []), pyStrip (line_items.getD 1 []),
               pyStrip (line_items.getD 2 [])⟩ :: rs)

end ScriptVocab

/-- Claim C3: `clean_up` applied to the seven-line list `["1",
"00:00:00,000 --> 00:00:01,000", "<i>This is a test.</i>", "2",
"00:00:01,000 --> 00:00:02,000", "This is a", "test."]` returns a list of
exactly two lines, both equal to `"This is a test."` — the first from
stripping the `<i>` tags, the second from merging the continuation line.
This holds for the module-level variant and for the class-based variant
(whose merge loop completes normally on this input). -/
theorem clean_up_seven_line_example :
    clean_up [str "1", str "00:00:00,000 --> 00:00:01,000",
        str "<i>This is a test.</i>", str "2", str "00:00:01,000 --> 00:00:02,000",
        str "This is a", str "test."] =
      [str "This is a test.", str "This is a test."] ∧
    ScriptVocab.clean_up [str "1", str "00:00:00,000 --> 00:00:01,000",
        str "<i>This is a test.</i>", str "2", str "00:00:01,000 --> 00:00:02,000",
        str "This is a", str "test."] =
      some [str "This is a test.", str "This is a test."] :=
  ⟨by decide, by decide⟩

/-- Claim C4: refuted by the code — `ScriptVocab.clean_up` iterates `i` over
`range(1, len(cleaner_lines))` computed before any `pop`, so after the
merge of `"world"` into `"Hello"` at position 1 shortens the list to two
entries, the iteration `i = 2` evaluates `cleaner_lines[2][0]` on a
two-element list and raises `IndexError` (modelled as `none`). -/
theorem clean_up_class_merge_goes_out_of_bounds :
    ScriptVocab.clean_up [str "Hello", str "world", str "Again"] = none := by
  decide

/-- Claim C5: retry law for one batch, `ScriptVocab.translate_chunk`.  If
the service raises on the first attempt and succeeds on the second, the
batch translation succeeds with exactly two service calls and exactly one
backoff wait; if the service raises on both attempts, the persistent
`ExternalTranslationError` is raised to the caller, again after exactly two
service calls and exactly one backoff wait. -/
theorem translate_chunk_retry_law (chunk : List (List Char)) (s : Service)
    (e r : List Char) :
    (s 0 (pyJoin (str "\n") chunk) = .error e →
      s 1 (pyJoin (str "\n") chunk) = .ok r →
      ScriptVocab.translate_chunk true s chunk TransLog.init =
        (.ok (pySplit '\n' r),
          ⟨[pyJoin (str "\n") chunk, pyJoin (str "\n") chunk], 1, 0⟩)) ∧
    (s 0 (pyJoin (str "\n") chunk) = .error e →
      s 1 (pyJoin (str "\n") chunk) = .error r →
      ScriptVocab.translate_chunk true s chunk TransLog.init =
        (.error (str "Translation failed, error: Translation failed\nTry again later."),
          ⟨[pyJoin (str "\n") chunk, pyJoin (str "\n") chunk], 1, 0⟩)) := by
  constructor
  · intro h1 h2
    simp only [ScriptVocab.translate_chunk, ScriptVocab.translate_text, TransLog.init,
      if_true, List.length_nil, List.nil_append, List.length_singleton, h1, h2]
    rfl
  · intro h1 h2
    simp only [ScriptVocab.translate_chunk, ScriptVocab.translate_text, TransLog.init,
      if_true, List.length_nil, List.nil_append, List.length_singleton, h1, h2]
    have h3 : str "Translation failed, error: " ++ str "Translation failed" ++
        str "\nTry again later." =
        str "Translation failed, error: Translation failed\nTry again later." := by
      decide
    rw [h3]
    rfl

/-- Claim C5 witness: the retry law applied to the one-word batch `["hola"]`
with a service that fails on its first call and answers `"hello"` on the
second, and to a service that fails on both calls. -/
theorem translate_chunk_retry_law_witness :
    ScriptVocab.translate_chunk true
        (fun i _ => if i = 0 then .error (str "boom") else .ok (str "hello"))
        [str "hola"] TransLog.init =
      (.ok [str "hello"], ⟨[str "hola", str "hola"], 1, 0⟩) ∧
    ScriptVocab.translate_chunk true (fun _ _ => .error (str "boom"))
        [str "hola"] TransLog.init =
      (.error (str "Translation failed, error: Translation failed\nTry again later."),
        ⟨[str "hola", str "hola"], 1, 0⟩) := by
  constructor
  · exact (translate_chunk_retry_law [str "hola"]
      (fun i _ => if i = 0 then .error (str "boom") else .ok (str "hello"))
      (str "boom") (str "hello")).1 rfl rfl
  · exact (translate_chunk_retry_law [str "hola"] (fun _ _ => .error (str "boom"))
      (str "boom") (str "boom")).2 rfl rfl

/-- Claim C9: `ScriptVocab.get_output_as_json` returns `None` for the whole
output as soon as some row does not split into exactly three
comma-separated fields, and returns the full record list — one record per
row, fields stripped — when every row splits into exactly three fields. -/
theorem get_output_as_json_all_or_nothing (output : List (List Char)) :
    ((∃ row ∈ output, (pySplit ',' row).length ≠ 3) →
      ScriptVocab.get_output_as_json output = none) ∧
    ((∀ row ∈ output, (pySplit ',' row).length = 3) →
      ScriptVocab.get_output_as_json output =
        some (output.map fun line =>
          ⟨pyStrip ((pySplit ',' line).getD 0 []),
           pyStrip ((pySplit ',' line).getD 1 []),
           pyStrip ((pySplit ',' line).getD 2 [])⟩)) := by
  induction output with
  | nil => exact ⟨fun ⟨_, h, _⟩ => absurd h (List.not_mem_nil _), fun _ => rfl⟩
  | cons line rest ih =>
    constructor
    · rintro ⟨row, hrow, hlen⟩
      rcases List.mem_cons.mp hrow with h | h
      · subst h
        simp only [ScriptVocab.get_output_as_json, if_pos hlen]
      · by_cases hline : (pySplit ',' line).length ≠ 3
        · simp only [ScriptVocab.get_output_as_json, if_pos hline]
        · simp only [ScriptVocab.get_output_as_json, if_neg hline,
            ih.1 ⟨row, h, hlen⟩]
    · intro hall
      have hline : ¬(pySplit ',' line).length ≠ 3 :=
        not_not_intro (hall line (List.mem_cons_self line rest))
      simp only [ScriptVocab.get_output_as_json, if_neg hline,
        ih.2 (fun row hr => hall row (List.mem_cons_of_mem line hr)), List.map_cons]

/-- Claim C9 witness: the all-or-nothing behaviour at the malformed
single-row output `["12,notTranslatedWord"]` and at the well-formed
single-row output `["5, palabra1, word1"]`. -/
theorem get_output_as_json_all_or_nothing_witness :
    ScriptVocab.get_output_as_json [str "12,notTranslatedWord"] = none ∧
    ScriptVocab.get_output_as_json [str "5, palabra1, word1"] =
      some [⟨str "5", str "palabra1", str "word1"⟩] := by
  constructor
  · exact (get_output_as_json_all_or_nothing [str "12,notTranslatedWord"]).1
      ⟨str "12,notTranslatedWord", by simp, by decide⟩
  · have h := (get_output_as_json_all_or_nothing [str "5, palabra1, word1"]).2
      (by decide)
    simpa using h

theorem alGet_bump (d : List (List Char × Nat)) (w x : List Char) :
    alGet (bump d w) x =
      if x = w then some ((alGet d w).getD 0 + 1) else alGet d x := by
  induction d with
  | nil =>
    rcases eq_or_ne x w with h | h <;> simp [bump, alGet, h, Ne.symm]
  | cons p d ih =>
    obtain ⟨k, v⟩ := p
    by_cases hkw : k = w
    · subst hkw
      rcases eq_or_ne x k with h | h <;> simp [bump, alGet, h, Ne.symm]
    · rcases eq_or_ne x k with h | h
      · subst h
        simp [bump, alGet, hkw, Ne.symm hkw]
      · simp [bump, alGet, hkw, Ne.symm h, ih]

theorem bump_keys (d : List (List Char × Nat)) (w : List Char) :
    (bump d w).map Prod.fst =
      if w ∈ d.map Prod.fst then d.map Prod.fst else d.map Prod.fst ++ [w] := by
  induction d with
  | nil => simp [bump]
  | cons p d ih =>
    obtain ⟨k, v⟩ := p
    by_cases hkw : k = w
    · subst hkw
      simp [bump]
    · simp only [bump, if_neg hkw, List.map_cons, List.mem_cons, ih]
      by_cases hw : w ∈ d.map Prod.fst
      · simp [hw, Ne.symm hkw]
      · simp [hw, Ne.symm hkw]

theorem bump_keys_nodup (d : List (List Char × Nat)) (w : List Char)
    (h : (d.map Prod.fst).Nodup) : ((bump d w).map Prod.fst).Nodup := by
  rw [bump_keys]
  by_cases hw : w ∈ d.map Prod.fst
  · simpa [hw] using h
  · rw [if_neg hw]
    exact List.Nodup.append h (List.nodup_singleton w)
      (fun a ha hb => hw (List.mem_singleton.mp hb ▸ ha))

theorem alGet_foldl_bump (ws : List (List Char)) :
    ∀ (d : List (List Char × Nat)) (x : List Char),
      alGet (ws.foldl bump d) x =
        if x ∈ ws then some ((alGet d x).getD 0 + ws.count x) else alGet d x := by
  induction ws with
  | nil => intro d x; simp
  | cons v ws ih =>
    intro d x
    rw [List.foldl_cons, ih]
    rcases eq_or_ne x v with hxv | hxv
    · subst hxv
      by_cases hmem : x ∈ ws
      · simp only [List.mem_cons, true_or, if_pos hmem, alGet_bump, if_pos rfl,
          List.count_cons, if_true]
        simp [List.count_cons]
        omega
      · simp [hmem, alGet_bump, List.count_cons, List.count_eq_zero_of_not_mem hmem]
    · by_cases hmem : x ∈ ws
      · simp [hmem, hxv, alGet_bump, List.count_cons, Ne.symm hxv]
      · simp [hmem, hxv, alGet_bump, List.count_cons, Ne.symm hxv]

theorem alGet_counter (ws : List (List Char)) (x : List Char) :
    alGet (counter ws) x =
      if x ∈ ws then some (ws.count x) else none := by
  rw [counter, alGet_foldl_bump]
  simp [alGet]

theorem counter_keys_nodup (ws : List (List Char)) :
    ((counter ws).map Prod.fst).Nodup := by
  rw [counter]
  have : ∀ (d : List (List Char × Nat)), (d.map Prod.fst).Nodup →
      ((ws.foldl bump d).map Prod.fst).Nodup := by
    induction ws with
    | nil => intro d h; simpa using h
    | cons v ws ih =>
      intro d h
      rw [List.foldl_cons]
      exact ih _ (bump_keys_nodup d v h)
  exact this [] (by simp)

theorem mem_iff_alGet {β : Type} (d : List (List Char × β)) (x : List Char) (c : β)
    (h : (d.map Prod.fst).Nodup) : (x, c) ∈ d ↔ alGet d x = some c := by
  induction d with
  | nil => simp [alGet]
  | cons p d ih =>
    obtain ⟨k, v⟩ := p
    simp only [List.map_cons, List.nodup_cons] at h
    rcases eq_or_ne k x with hkx | hkx
    · subst hkx
      have halg : alGet ((k, v) :: d) k = some v := by simp [alGet]
      constructor
      · intro hm
        rcases List.mem_cons.mp hm with heq | hm
        · injection heq with h1 h2
          rw [halg, h2]
        · exact absurd (List.mem_map_of_mem Prod.fst hm) h.1
      · intro halg2
        rw [halg] at halg2
        injection halg2 with h2
        exact List.mem_cons.mpr (Or.inl (by rw [h2]))
    · simp only [alGet, if_neg hkx, List.mem_cons, Prod.mk.injEq, ih h.2]
      constructor
      · rintro (⟨rfl, rfl⟩ | hm)
        · exact absurd rfl hkx
        · exact hm
      · exact Or.inr

/-- Claim C1: for every token list and every threshold, `create_dictionary`
returns a mapping whose entries are exactly the pairs of a distinct input
token with occurrence count at least the threshold together with that
count, whose keys are pairwise distinct, and whose iteration order is
non-increasing in count; the class-based method computes the same function,
and on `["test","test","example","example","example"]` threshold 2 yields
`[("example", 3), ("test", 2)]` in that order while threshold 3 yields
`[("example", 3)]` only. -/
theorem create_dictionary_spec :
    (∀ (words : List (List Char)) (m : Nat) (w : List Char) (c : Nat),
      ((w, c) ∈ create_dictionary words m ↔
        w ∈ words ∧ m ≤ words.count w ∧ c = words.count w)) ∧
    (∀ (words : List (List Char)) (m : Nat),
      ((create_dictionary words m).map Prod.fst).Nodup) ∧
    (∀ (words : List (List Char)) (m : Nat),
      (create_dictionary words m).Pairwise (fun a b => b.2 ≤ a.2)) ∧
    (∀ (words : List (List Char)) (m : Nat),
      ScriptVocab.create_dictionary words m = create_dictionary words m) ∧
    create_dictionary
        [str "test", str "test", str "example", str "example", str "example"] 2 =
      [(str "example", 3), (str "test", 2)] ∧
    create_dictionary
        [str "test", str "test", str "example", str "example", str "example"] 3 =
      [(str "example", 3)] := by
  refine ⟨?_, ?_, ?_, fun _ _ => rfl, by decide, by decide⟩
  · intro words m w c
    rw [create_dictionary, (List.perm_insertionSort descBySnd _).mem_iff,
      List.mem_filter, mem_iff_alGet _ _ _ (counter_keys_nodup words),
      alGet_counter]
    simp only [decide_eq_true_eq]
    constructor
    · rintro ⟨halg, hm⟩
      by_cases hw : w ∈ words
      · rw [if_pos hw] at halg
        injection halg with h2
        exact ⟨hw, by rw [h2]; exact hm, h2.symm⟩
      · rw [if_neg hw] at halg
        cases halg
    · rintro ⟨hw, hm, rfl⟩
      exact ⟨by rw [if_pos hw], hm⟩
  · intro words m
    have hsub :
        (((counter words).filter (fun item => m ≤ item.2)).map Prod.fst).Sublist
          ((counter words).map Prod.fst) :=
      (List.filter_sublist _).map Prod.fst
    have hnd := hsub.nodup (counter_keys_nodup words)
    rw [create_dictionary]
    exact ((List.perm_insertionSort descBySnd _).map Prod.fst).nodup_iff.mpr hnd
  · intro words m
    exact List.sorted_insertionSort descBySnd _

theorem tsTail_iff (l : List Char) :
    tsTail l = true ↔
      ∃ (m1 m2 s1 s2 x1 x2 x3 : Char) (rest : List Char),
        m1.isDigit = true ∧ m2.isDigit = true ∧ s1.isDigit = true ∧
        s2.isDigit = true ∧ x1.isDigit = true ∧ x2.isDigit = true ∧
        x3.isDigit = true ∧
        l = ':' :: m1 :: m2 :: ':' :: s1 :: s2 :: ',' :: x1 :: x2 :: x3 :: rest := by
  constructor
  · intro h
    rcases l with _ | ⟨c0, _ | ⟨m1, _ | ⟨m2, _ | ⟨c3, _ | ⟨s1, _ | ⟨s2, _ | ⟨c6,
      _ | ⟨x1, _ | ⟨x2, _ | ⟨x3, rest⟩⟩⟩⟩⟩⟩⟩⟩⟩⟩ <;> simp [tsTail, and_assoc] at h
    obtain ⟨rfl, h1, h2, rfl, h3, h4, rfl, h5, h6, h7⟩ := h
    exact ⟨m1, m2, s1, s2, x1, x2, x3, rest, h1, h2, h3, h4, h5, h6, h7, rfl⟩
  · rintro ⟨m1, m2, s1, s2, x1, x2, x3, rest, h1, h2, h3, h4, h5, h6, h7, rfl⟩
    simp [tsTail, h1, h2, h3, h4, h5, h6, h7]

theorem is_time_stamp_iff (l : List Char) :
    is_time_stamp l = true ↔ TimestampAtStart l := by
  constructor
  · intro h
    rcases l with _ | ⟨c1, rest⟩
    · simp [is_time_stamp] at h
    simp only [is_time_stamp, Bool.and_eq_true, Bool.or_eq_true] at h
    obtain ⟨hd1, h2⟩ := h
    rcases h2 with h2 | h2
    · obtain ⟨m1, m2, s1, s2, x1, x2, x3, rest', h1, h2', h3, h4, h5, h6, h7, rfl⟩ :=
        (tsTail_iff rest).mp h2
      refine ⟨[c1], [m1, m2], [s1, s2], [x1, x2, x3], rest', Or.inl rfl, ?_, rfl,
        ?_, rfl, ?_, rfl, ?_, rfl⟩ <;> simp_all
    · rcases rest with _ | ⟨c2, rest2⟩
      · simp [tsTail2] at h2
      simp only [tsTail2, Bool.and_eq_true] at h2
      obtain ⟨hd2, h2⟩ := h2
      obtain ⟨m1, m2, s1, s2, x1, x2, x3, rest', h1, h2', h3, h4, h5, h6, h7, rfl⟩ :=
        (tsTail_iff rest2).mp h2
      refine ⟨[c1, c2], [m1, m2], [s1, s2], [x1, x2, x3], rest', Or.inr rfl, ?_, rfl,
        ?_, rfl, ?_, rfl, ?_, rfl⟩ <;> simp_all
  · rintro ⟨hh, mm, ss, ms, rest, hlen, hhd, hmm2, hmmd, hss2, hssd, hms3, hmsd, rfl⟩
    obtain ⟨b1, b2, rfl⟩ := List.length_eq_two.mp hmm2
    obtain ⟨e1, e2, rfl⟩ := List.length_eq_two.mp hss2
    obtain ⟨f1, f2, f3, rfl⟩ := List.length_eq_three.mp hms3
    have hb1 := hmmd b1 (by simp)
    have hb2 := hmmd b2 (by simp)
    have he1 := hssd e1 (by simp)
    have he2 := hssd e2 (by simp)
    have hf1 := hmsd f1 (by simp)
    have hf2 := hmsd f2 (by simp)
    have hf3 := hmsd f3 (by simp)
    rcases hlen with h1 | h1
    · obtain ⟨d1, rfl⟩ := List.length_eq_one.mp h1
      have hd1 := hhd d1 (by simp)
      simp [is_time_stamp, tsTail, hd1, hb1, hb2, he1, he2, hf1, hf2, hf3]
    · obtain ⟨d1, d2, rfl⟩ := List.length_eq_two.mp h1
      have hd1 := hhd d1 (by simp)
      have hd2 := hhd d2 (by simp)
      simp [is_time_stamp, tsTail, tsTail2, hd1, hd2, hb1, hb2, he1, he2, hf1,
        hf2, hf3]

theorem pySpace_not_alpha (c : Char) (h : pySpace c = true) : c.isAlpha = false := by
  simp only [pySpace, Bool.or_eq_true, beq_iff_eq, or_assoc] at h
  rcases h with rfl | rfl | rfl | rfl | rfl | rfl <;> decide

theorem has_letters_dropWhile (l : List Char) :
    has_letters (l.dropWhile pySpace) = has_letters l := by
  induction l with
  | nil => rfl
  | cons c cs ih =>
    by_cases hc : pySpace c = true
    · rw [List.dropWhile_cons_of_pos hc, ih]
      simp [has_letters, pySpace_not_alpha c hc]
    · rw [List.dropWhile_cons_of_neg hc]

theorem has_letters_reverse (l : List Char) :
    has_letters l.reverse = has_letters l := by
  simp [has_letters, List.any_eq_true]

theorem has_letters_pyStrip (l : List Char) :
    has_letters (pyStrip l) = has_letters l := by
  rw [pyStrip, pyRstrip, pyLstrip, has_letters_reverse, has_letters_dropWhile,
    has_letters_reverse, has_letters_dropWhile]

/-- Claim C2: for every line, `has_no_text` holds iff the trimmed line is
empty, or consists only of digits, or starts with a timestamp of the shape
1-2 digits, colon, 2 digits, colon, 2 digits, comma, 3 digits, or the line
contains no ASCII letter; in particular on `"00:01:23,456"`, `"Hello
world"`, `"123"` and `"!!!"` it returns `true`, `false`, `true`, `true`. -/
theorem has_no_text_spec :
    (∀ line : List Char,
      (has_no_text line = true ↔
        (pyStrip line = [] ∨
         (pyStrip line ≠ [] ∧ ∀ c ∈ pyStrip line, c.isDigit = true) ∨
         TimestampAtStart (pyStrip line) ∨
         (∀ c ∈ line, c.isAlpha = false)))) ∧
    has_no_text (str "00:01:23,456") = true ∧
    has_no_text (str "Hello world") = false ∧
    has_no_text (str "123") = true ∧
    has_no_text (str "!!!") = true := by
  refine ⟨?_, by decide, by decide, by decide, by decide⟩
  intro line
  have h1 : ((pyStrip line).isEmpty = true) ↔ pyStrip line = [] := by
    simp
  have h2 : (pyIsNumeric (pyStrip line) = true) ↔
      (pyStrip line ≠ [] ∧ ∀ c ∈ pyStrip line, c.isDigit = true) := by
    simp [pyIsNumeric]
  have h3 := is_time_stamp_iff (pyStrip line)
  have h4 : ((!has_letters (pyStrip line)) = true) ↔ (∀ c ∈ line, c.isAlpha = false) := by
    rw [Bool.not_eq_true', has_letters_pyStrip]
    simp [has_letters]
  simp only [has_no_text, Bool.or_eq_true]
  rw [h1, h2, h3, h4]
  tauto

theorem convert_to_chunks_flatten (l : List (List Char)) (k : Nat) :
    (ScriptVocab.convert_to_chunks l (k + 1)).flatten = l := by
  generalize hn : l.length = n
  induction n using Nat.strong_induction_on generalizing l with
  | _ n ih =>
    rw [ScriptVocab.convert_to_chunks]
    by_cases hl : l.isEmpty
    · simp_all [List.isEmpty_iff]
    · have hne : l ≠ [] := by simpa [List.isEmpty_iff] using hl
      have hpos : 0 < l.length := List.length_pos.mpr hne
      rw [if_neg hl, List.flatten_cons,
        ih (l.drop (k + 1)).length (by simp [List.length_drop]; omega) _ rfl]
      exact List.take_append_drop (k + 1) l

theorem translate_dictionary_four_two (w1 w2 w3 w4 : List Char)
    (c1 c2 c3 c4 : Nat) (g : Nat → List Char → List Char) :
    ScriptVocab.translate_dictionary true (fun i p => Except.ok (g i p))
        [(w1, c1), (w2, c2), (w3, c3), (w4, c4)] 2 TransLog.init =
      (Except.ok
          (pyDictUpdate
            (pyDictUpdate [] (chunkDict w1 w2 (g 0 (pyJoin (str "\n") [w1, w2]))))
            (chunkDict w3 w4 (g 1 (pyJoin (str "\n") [w3, w4])))),
        TransLog.mk [pyJoin (str "\n") [w1, w2], pyJoin (str "\n") [w3, w4]] 0 2) := by
  have hchunks :
      ScriptVocab.convert_to_chunks [w1, w2, w3, w4] 2 = [[w1, w2], [w3, w4]] := by
    rw [ScriptVocab.convert_to_chunks]
    norm_num
    rw [ScriptVocab.convert_to_chunks]
    norm_num
    rw [ScriptVocab.convert_to_chunks]
    norm_num
  rw [ScriptVocab.translate_dictionary]
  simp only [List.map_cons, List.map_nil, hchunks]
  rfl

/-- Claim C6: translation batching for the class-based client.  Chunking
splits the word list into consecutive slices of the batch size whose
concatenation is the original list; for a four-word frequency map and batch
size 2 exactly two service calls are issued, each carrying one batch joined
by newlines in the map's iteration order; and the newline-split responses
are zipped positionally, so with responses `"word1\nword2"` and
`"word3\nword4"` the palabra words map to word1..word4 in order. -/
theorem translation_batching_spec :
    (∀ (l : List (List Char)) (k : Nat),
      (ScriptVocab.convert_to_chunks l (k + 1)).flatten = l) ∧
    (∀ (w1 w2 w3 w4 : List Char) (c1 c2 c3 c4 : Nat)
        (g : Nat → List Char → List Char),
      (ScriptVocab.translate_dictionary true (fun i p => Except.ok (g i p))
          [(w1, c1), (w2, c2), (w3, c3), (w4, c4)] 2 TransLog.init).2.calls =
        [pyJoin (str "\n") [w1, w2], pyJoin (str "\n") [w3, w4]]) ∧
    (ScriptVocab.translate_dictionary true
        (fun i _ => Except.ok (if i = 0 then str "word1\nword2" else str "word3\nword4"))
        [(str "palabra1", 4), (str "palabra2", 3), (str "palabra3", 2),
          (str "palabra4", 1)] 2 TransLog.init).1 =
      Except.ok [(str "palabra1", str "word1"), (str "palabra2", str "word2"),
        (str "palabra3", str "word3"), (str "palabra4", str "word4")] := by
  refine ⟨convert_to_chunks_flatten, ?_, ?_⟩
  · intro w1 w2 w3 w4 c1 c2 c3 c4 g
    rw [translate_dictionary_four_two]
  · have h := translate_dictionary_four_two (str "palabra1") (str "palabra2")
      (str "palabra3") (str "palabra4") 4 3 2 1
      (fun i _ => if i = 0 then str "word1\nword2" else str "word3\nword4")
    exact (congrArg Prod.fst h).trans (by rfl)

theorem old_attempt_pacings (s : Service) (text : List Char) (log : TransLog) :
    (old_attempt s text log).2.pacings = log.pacings := by
  rw [old_attempt]
  cases s log.calls.length text with
  | ok o => rfl
  | error e =>
    simp only []
    cases s (log.calls ++ [text]).length text with
    | ok o => rfl
    | error e => rfl

theorem translate_dictionary_go_class_pacings (g : Nat → List Char → List Char)
    (chunks : List (List (List Char))) :
    ∀ (td : List (List Char × List Char)) (log : TransLog),
      (ScriptVocab.translate_dictionary_go true (fun i p => Except.ok (g i p))
          chunks td log).2.pacings = log.pacings + chunks.length := by
  induction chunks with
  | nil => intro td log; simp [ScriptVocab.translate_dictionary_go]
  | cons chunk rest ih =>
    intro td log
    rw [ScriptVocab.translate_dictionary_go]
    simp only [ScriptVocab.translate_chunk, ScriptVocab.translate_text, if_true]
    rw [ih]
    simp only [List.length_cons]
    omega

theorem translate_dictionary_class_pacings (d : List (List Char × Nat)) (k : Nat)
    (g : Nat → List Char → List Char) :
    (ScriptVocab.translate_dictionary true (fun i p => Except.ok (g i p)) d (k + 1)
        TransLog.init).2.pacings =
      (ScriptVocab.convert_to_chunks (d.map Prod.fst) (k + 1)).length := by
  rw [ScriptVocab.translate_dictionary, translate_dictionary_go_class_pacings]
  simp [TransLog.init]

theorem translate_dictionary_go_old_pacings (s : Service) (ws : List (List Char)) :
    ∀ (first : Bool) (td : List (List Char × List Char)) (log : TransLog),
      (translate_dictionary_go s ws first td log).2.pacings =
        log.pacings +
          ((ScriptVocab.convert_to_chunks ws 100).length - (if first then 1 else 0)) := by
  generalize hn : ws.length = n
  induction n using Nat.strong_induction_on generalizing ws with
  | _ n ih =>
    intro first td log
    match ws with
    | [] =>
      rw [translate_dictionary_go, ScriptVocab.convert_to_chunks]
      simp
    | w :: ws' =>
      have hlt : ((w :: ws').drop 100).length < n := by
        simp only [List.length_drop, List.length_cons] at hn ⊢
        omega
      rw [translate_dictionary_go]
      rw [ih ((w :: ws').drop 100).length hlt _ rfl false _ _, old_attempt_pacings]
      have hchunks : (ScriptVocab.convert_to_chunks (w :: ws') 100).length =
          (ScriptVocab.convert_to_chunks ((w :: ws').drop 100) 100).length + 1 := by
        rw [ScriptVocab.convert_to_chunks]
        simp
      cases first <;> (simp [hchunks]; try omega)

/-- Claim C7 counterexample: a dictionary of one word translated with batch
size 1 forms exactly one batch (`k = 1`), yet the class-based
`ScriptVocab.translate_dictionary` performs one pacing wait, not `k - 1 = 0`
— its `time.sleep(2)` rate limiter runs after every batch, including the
last. -/
theorem class_pacing_counterexample :
    (ScriptVocab.convert_to_chunks [str "a"] 1).length = 1 ∧
    (ScriptVocab.translate_dictionary true (fun i p => Except.ok ((fun _ _ => str "x") i p))
        [(str "a", 1)] 1 TransLog.init).2.pacings = 1 ∧
    (ScriptVocab.translate_dictionary true (fun i p => Except.ok ((fun _ _ => str "x") i p))
        [(str "a", 1)] 1 TransLog.init).2.pacings ≠
      (ScriptVocab.convert_to_chunks [str "a"] 1).length - 1 := by
  have hc : ScriptVocab.convert_to_chunks [str "a"] 1 = [[str "a"]] := by
    rw [ScriptVocab.convert_to_chunks]
    norm_num
    rw [ScriptVocab.convert_to_chunks]
    norm_num
  have hp := translate_dictionary_class_pacings [(str "a", 1)] 0 (fun _ _ => str "x")
  simp only [List.map_cons, List.map_nil, hc] at hp
  refine ⟨by rw [hc]; rfl, ?_, ?_⟩
  · rw [hp]
    decide
  · rw [hp, hc]
    decide

/-- Claim C7 (amended): the legacy module-level `translate_dictionary` waits
only before every chunk except the first — over any service behaviour it
performs exactly (number of 100-word chunks) - 1 pacing waits, none before
the first batch and none after the last; the class-based
`ScriptVocab.translate_dictionary`, on a run in which every service call
succeeds, instead performs exactly one pacing wait after every batch,
including the last — (number of chunks) waits, not (number of chunks) - 1.
Retry backoff waits are counted separately in both variants. -/
theorem pacing_waits_amended :
    (∀ (d : List (List Char × Nat)) (s : Service),
      (translate_dictionary s d TransLog.init).2.pacings =
        (ScriptVocab.convert_to_chunks (d.map Prod.fst) 100).length - 1) ∧
    (∀ (d : List (List Char × Nat)) (k : Nat) (g : Nat → List Char → List Char),
      (ScriptVocab.translate_dictionary true (fun i p => Except.ok (g i p)) d (k + 1)
          TransLog.init).2.pacings =
        (ScriptVocab.convert_to_chunks (d.map Prod.fst) (k + 1)).length) := by
  constructor
  · intro d s
    rw [translate_dictionary, translate_dictionary_go_old_pacings]
    simp [TransLog.init]
  · intro d k g
    exact translate_dictionary_class_pacings d k g

theorem digitChar_isDigit (m : Nat) (h : m < 10) : (Nat.digitChar m).isDigit = true := by
  interval_cases m <;> decide

theorem toDigitsCore_zero (b n : Nat) (ds : List Char) :
    Nat.toDigitsCore b 0 n ds = ds := rfl

theorem toDigitsCore_succ (b fuel n : Nat) (ds : List Char) :
    Nat.toDigitsCore b (fuel + 1) n ds =
      if n / b = 0 then (n % b).digitChar :: ds
      else Nat.toDigitsCore b fuel (n / b) ((n % b).digitChar :: ds) := rfl

theorem toDigitsCore_digits (fuel : Nat) :
    ∀ (n : Nat) (ds : List Char), (∀ c ∈ ds, c.isDigit = true) →
      ∀ c ∈ Nat.toDigitsCore 10 fuel n ds, c.isDigit = true := by
  induction fuel with
  | zero => intro n ds hds c hc; exact hds c hc
  | succ fuel ih =>
    intro n ds hds c hc
    rw [toDigitsCore_succ] at hc
    have hmod : (Nat.digitChar (n % 10)).isDigit = true :=
      digitChar_isDigit _ (Nat.mod_lt _ (by decide))
    by_cases h0 : n / 10 = 0
    · rw [if_pos h0] at hc
      rcases List.mem_cons.mp hc with rfl | hm
      · exact hmod
      · exact hds c hm
    · rw [if_neg h0] at hc
      refine ih (n / 10) _ ?_ c hc
      intro c' hc'
      rcases List.mem_cons.mp hc' with rfl | hm
      · exact hmod
      · exact hds c' hm

theorem toDigits_digits (n : Nat) : ∀ c ∈ Nat.toDigits 10 n, c.isDigit = true :=
  toDigitsCore_digits (n + 1) n [] (by simp)

theorem isDigit_ne_comma (c : Char) (h : c.isDigit = true) : c ≠ ',' := by
  intro hc
  subst hc
  exact absurd h (by decide)

theorem isDigit_not_space (c : Char) (h : c.isDigit = true) : pySpace c = false := by
  by_contra hne
  have hsp : pySpace c = true := by simpa using hne
  simp only [pySpace, Bool.or_eq_true, beq_iff_eq, or_assoc] at hsp
  rcases hsp with rfl | rfl | rfl | rfl | rfl | rfl <;> exact absurd h (by decide)

theorem dropWhile_no_space (l : List Char) (h : ∀ c ∈ l, pySpace c = false) :
    l.dropWhile pySpace = l := by
  cases l with
  | nil => rfl
  | cons c cs =>
    rw [List.dropWhile_cons_of_neg]
    simp [h c (List.mem_cons_self c cs)]

theorem pyStrip_no_space (l : List Char) (h : ∀ c ∈ l, pySpace c = false) :
    pyStrip l = l := by
  rw [pyStrip, pyLstrip, dropWhile_no_space _ h, pyRstrip, dropWhile_no_space,
    List.reverse_reverse]
  intro c hc
  exact h c (List.mem_reverse.mp hc)

theorem pyStrip_cons_space (w : List Char) : pyStrip (' ' :: w) = pyStrip w := by
  rw [pyStrip, pyStrip, pyLstrip, pyLstrip, List.dropWhile_cons_of_pos (by decide)]

theorem pySplit_ne_nil (sep : Char) (l : List Char) : pySplit sep l ≠ [] := by
  cases l with
  | nil => simp [pySplit]
  | cons c cs =>
    rw [pySplit]
    rcases hsplit : pySplit sep cs with _ | ⟨hh, tt⟩
    · simp
    · by_cases hc : c == sep <;> simp [hc]

theorem pySplit_not_mem (sep : Char) (l : List Char) (h : sep ∉ l) :
    pySplit sep l = [l] := by
  induction l with
  | nil => rfl
  | cons c cs ih =>
    simp only [List.mem_cons, not_or] at h
    rw [pySplit, ih h.2]
    have hc : (c == sep) = false := by
      simp only [beq_eq_false_iff_ne]
      exact fun e => h.1 e.symm
    simp [hc]

theorem pySplit_append_cons (sep : Char) (xs ys : List Char) (h : sep ∉ xs) :
    pySplit sep (xs ++ sep :: ys) = xs :: pySplit sep ys := by
  induction xs with
  | nil =>
    rw [List.nil_append, pySplit]
    rcases hsplit : pySplit sep ys with _ | ⟨hh, tt⟩
    · exact absurd hsplit (pySplit_ne_nil sep ys)
    · simp
  | cons c cs ih =>
    simp only [List.mem_cons, not_or] at h
    rw [List.cons_append, pySplit, ih h.2]
    have hc : (c == sep) = false := by
      simp only [beq_eq_false_iff_ne]
      exact fun e => h.1 e.symm
    simp [hc]

theorem pySplit_row (D w t : List Char) (hD : ',' ∉ D) (hw : ',' ∉ w)
    (ht : ',' ∉ t) :
    pySplit ',' (D ++ str ", " ++ w ++ str ", " ++ t) = [D, ' ' :: w, ' ' :: t] := by
  have h1 : D ++ str ", " ++ w ++ str ", " ++ t =
      D ++ ',' :: ((' ' :: w) ++ ',' :: (' ' :: t)) := by
    simp [str]
  have hw' : ',' ∉ ' ' :: w := by
    simp only [List.mem_cons, not_or]
    exact ⟨by decide, hw⟩
  have ht' : ',' ∉ ' ' :: t := by
    simp only [List.mem_cons, not_or]
    exact ⟨by decide, ht⟩
  rw [h1, pySplit_append_cons ',' D _ hD, pySplit_append_cons ',' (' ' :: w) _ hw',
    pySplit_not_mem ',' (' ' :: t) ht']

/-- Claim C8 (amended): building the output rows from a Word Frequency Map
and a Translation Map and parsing them back with `get_output_as_json`
reproduces the original (count, word, translation) triples as string-valued
fields, provided no row's word or translation contains a comma AND neither
carries leading or trailing whitespace — the parser strips every field, so
surrounding whitespace (the extra failure mode the counterexample shows) is
not preserved. -/
theorem run_output_roundtrip (wd : List (List Char × Nat))
    (td : List (List Char × List Char))
    (hcond : ∀ p ∈ wd, ',' ∉ p.1 ∧ pyStrip p.1 = p.1 ∧
      ',' ∉ pyDictGetD td p.1 [] ∧
      pyStrip (pyDictGetD td p.1 []) = pyDictGetD td p.1 []) :
    ScriptVocab.get_output_as_json (ScriptVocab.run_output wd td) =
      some (wd.map fun p =>
        ⟨Nat.toDigits 10 p.2, p.1, pyDictGetD td p.1 []⟩) := by
  induction wd with
  | nil => rfl
  | cons p rest ih =>
    obtain ⟨w, cnt⟩ := p
    obtain ⟨hw1, hw2, ht1, ht2⟩ := hcond (w, cnt) (List.mem_cons_self _ _)
    have hD := toDigits_digits cnt
    have hDc : ',' ∉ Nat.toDigits 10 cnt :=
      fun hm => isDigit_ne_comma _ (hD _ hm) rfl
    have hDs : pyStrip (Nat.toDigits 10 cnt) = Nat.toDigits 10 cnt :=
      pyStrip_no_space _ (fun c hc => isDigit_not_space c (hD c hc))
    have hrow := pySplit_row (Nat.toDigits 10 cnt) w (pyDictGetD td w []) hDc hw1 ht1
    have hrest := ih (fun q hq => hcond q (List.mem_cons_of_mem _ hq))
    simp only [ScriptVocab.run_output, List.map_cons] at hrest ⊢
    rw [ScriptVocab.get_output_as_json]
    simp only [hrow]
    rw [if_neg (by simp)]
    rw [show ScriptVocab.get_output_as_json
        (List.map (fun wc => Nat.toDigits 10 wc.2 ++ str ", " ++ wc.1 ++ str ", " ++
          pyDictGetD td wc.1 []) rest) =
        some (List.map (fun p =>
          ScriptVocab.OutRecord.mk (Nat.toDigits 10 p.2) p.1 (pyDictGetD td p.1 []))
          rest) from hrest]
    simp only [Option.some_inj, List.getD, List.get?_cons_zero, List.get?_cons_succ,
      Option.getD_some]
    rw [show pyStrip (' ' :: w) = w from (pyStrip_cons_space w).trans hw2,
      show pyStrip (' ' :: pyDictGetD td w []) = pyDictGetD td w [] from
        (pyStrip_cons_space _).trans ht2, hDs]

/-- Claim C8 witness: the round-trip applied to the one-row frequency map
`[("palabra", 2)]` with translation map `[("palabra", "word")]`, whose word
and translation contain no comma and no surrounding whitespace. -/
theorem run_output_roundtrip_witness :
    ScriptVocab.get_output_as_json
        (ScriptVocab.run_output [(str "palabra", 2)] [(str "palabra", str "word")]) =
      some [⟨str "2", str "palabra", str "word"⟩] :=
  run_output_roundtrip [(str "palabra", 2)] [(str "palabra", str "word")]
    (by decide)

/-- Claim C8 counterexample: a translation with a leading space and no
comma anywhere.  The built row is `"1, a,  x"`; parsing it back strips the
fields, returning translated text `"x"` instead of the original `" x"`, so
the round-trip as claimed (conditioned only on the absence of embedded
commas) fails. -/
theorem run_output_roundtrip_counterexample :
    pyDictGetD [(str "a", str " x")] (str "a") [] = str " x" ∧
    (',' ∉ str "a" ∧ ',' ∉ str " x") ∧
    ScriptVocab.run_output [(str "a", 1)] [(str "a", str " x")] = [str "1, a,  x"] ∧
    ScriptVocab.get_output_as_json
        (ScriptVocab.run_output [(str "a", 1)] [(str "a", str " x")]) =
      some [⟨str "1", str "a", str "x"⟩] ∧
    str "x" ≠ str " x" := by
  refine ⟨rfl, by decide, by decide, by decide, by decide⟩
theorem lowerChar_isDigit (c : Char) :
    (lowerChar c).isDigit = c.isDigit := by
  by_cases h1 : c = 'A'
  · subst h1; decide
  by_cases h2 : c = 'B'
  · subst h2; decide
  by_cases h3 : c = 'C'
  · subst h3; decide
  by_cases h4 : c = 'D'
  · subst h4; decide
  by_cases h5 : c = 'E'
  · subst h5; decide
  by_cases h6 : c = 'F'
  · subst h6; decide
  by_cases h7 : c = 'G'
  · subst h7; decide
  by_cases h8 : c = 'H'
  · subst h8; decide
  by_cases h9 : c = 'I'
  · subst h9; decide
  by_cases h10 : c = 'J'
  · subst h10; decide
  by_cases h11 : c = 'K'
  · subst h11; decide
  by_cases h12 : c = 'L'
  · subst h12; decide
  by_cases h13 : c = 'M'
  · subst h13; decide
  by_cases h14 : c = 'N'
  · subst h14; decide
  by_cases h15 : c = 'O'
  · subst h15; decide
  by_cases h16 : c = 'P'
  · subst h16; decide
  by_cases h17 : c = 'Q'
  · subst h17; decide
  by_cases h18 : c = 'R'
  · subst h18; decide
  by_cases h19 : c = 'S'
  · subst h19; decide
  by_cases h20 : c = 'T'
  · subst h20; decide
  by_cases h21 : c = 'U'
  · subst h21; decide
  by_cases h22 : c = 'V'
  · subst h22; decide
  by_cases h23 : c = 'W'
  · subst h23; decide
  by_cases h24 : c = 'X'
  · subst h24; decide
  by_cases h25 : c = 'Y'
  · subst h25; decide
  by_cases h26 : c = 'Z'
  · subst h26; decide
  have hc : lowerChar c = c := by
    simp [lowerChar, h1, h2, h3, h4, h5, h6, h7, h8, h9, h10, h11, h12, h13, h14, h15, h16, h17, h18, h19, h20, h21, h22, h23, h24, h25, h26]
  rw [hc]

theorem lowerChar_isAlpha (c : Char) :
    (lowerChar c).isAlpha = c.isAlpha := by
  by_cases h1 : c = 'A'
  · subst h1; decide
  by_cases h2 : c = 'B'
  · subst h2; decide
  by_cases h3 : c = 'C'
  · subst h3; decide
  by_cases h4 : c = 'D'
  · subst h4; decide
  by_cases h5 : c = 'E'
  · subst h5; decide
  by_cases h6 : c = 'F'
  · subst h6; decide
  by_cases h7 : c = 'G'
  · subst h7; decide
  by_cases h8 : c = 'H'
  · subst h8; decide
  by_cases h9 : c = 'I'
  · subst h9; decide
  by_cases h10 : c = 'J'
  · subst h10; decide
  by_cases h11 : c = 'K'
  · subst h11; decide
  by_cases h12 : c = 'L'
  · subst h12; decide
  by_cases h13 : c = 'M'
  · subst h13; decide
  by_cases h14 : c = 'N'
  · subst h14; decide
  by_cases h15 : c = 'O'
  · subst h15; decide
  by_cases h16 : c = 'P'
  · subst h16; decide
  by_cases h17 : c = 'Q'
  · subst h17; decide
  by_cases h18 : c = 'R'
  · subst h18; decide
  by_cases h19 : c = 'S'
  · subst h19; decide
  by_cases h20 : c = 'T'
  · subst h20; decide
  by_cases h21 : c = 'U'
  · subst h21; decide
  by_cases h22 : c = 'V'
  · subst h22; decide
  by_cases h23 : c = 'W'
  · subst h23; decide
  by_cases h24 : c = 'X'
  · subst h24; decide
  by_cases h25 : c = 'Y'
  · subst h25; decide
  by_cases h26 : c = 'Z'
  · subst h26; decide
  have hc : lowerChar c = c := by
    simp [lowerChar, h1, h2, h3, h4, h5, h6, h7, h8, h9, h10, h11, h12, h13, h14, h15, h16, h17, h18, h19, h20, h21, h22, h23, h24, h25, h26]
  rw [hc]

theorem lowerChar_wordChar (c : Char) :
    wordChar (lowerChar c) = wordChar c := by
  by_cases h1 : c = 'A'
  · subst h1; decide
  by_cases h2 : c = 'B'
  · subst h2; decide
  by_cases h3 : c = 'C'
  · subst h3; decide
  by_cases h4 : c = 'D'
  · subst h4; decide
  by_cases h5 : c = 'E'
  · subst h5; decide
  by_cases h6 : c = 'F'
  · subst h6; decide
  by_cases h7 : c = 'G'
  · subst h7; decide
  by_cases h8 : c = 'H'
  · subst h8; decide
  by_cases h9 : c = 'I'
  · subst h9; decide
  by_cases h10 : c = 'J'
  · subst h10; decide
  by_cases h11 : c = 'K'
  · subst h11; decide
  by_cases h12 : c = 'L'
  · subst h12; decide
  by_cases h13 : c = 'M'
  · subst h13; decide
  by_cases h14 : c = 'N'
  · subst h14; decide
  by_cases h15 : c = 'O'
  · subst h15; decide
  by_cases h16 : c = 'P'
  · subst h16; decide
  by_cases h17 : c = 'Q'
  · subst h17; decide
  by_cases h18 : c = 'R'
  · subst h18; decide
  by_cases h19 : c = 'S'
  · subst h19; decide
  by_cases h20 : c = 'T'
  · subst h20; decide
  by_cases h21 : c = 'U'
  · subst h21; decide
  by_cases h22 : c = 'V'
  · subst h22; decide
  by_cases h23 : c = 'W'
  · subst h23; decide
  by_cases h24 : c = 'X'
  · subst h24; decide
  by_cases h25 : c = 'Y'
  · subst h25; decide
  by_cases h26 : c = 'Z'
  · subst h26; decide
  have hc : lowerChar c = c := by
    simp [lowerChar, h1, h2, h3, h4, h5, h6, h7, h8, h9, h10, h11, h12, h13, h14, h15, h16, h17, h18, h19, h20, h21, h22, h23, h24, h25, h26]
  rw [hc]

theorem lowerChar_idem (c : Char) :
    lowerChar (lowerChar c) = lowerChar c := by
  by_cases h1 : c = 'A'
  · subst h1; decide
  by_cases h2 : c = 'B'
  · subst h2; decide
  by_cases h3 : c = 'C'
  · subst h3; decide
  by_cases h4 : c = 'D'
  · subst h4; decide
  by_cases h5 : c = 'E'
  · subst h5; decide
  by_cases h6 : c = 'F'
  · subst h6; decide
  by_cases h7 : c = 'G'
  · subst h7; decide
  by_cases h8 : c = 'H'
  · subst h8; decide
  by_cases h9 : c = 'I'
  · subst h9; decide
  by_cases h10 : c = 'J'
  · subst h10; decide
  by_cases h11 : c = 'K'
  · subst h11; decide
  by_cases h12 : c = 'L'
  · subst h12; decide
  by_cases h13 : c = 'M'
  · subst h13; decide
  by_cases h14 : c = 'N'
  · subst h14; decide
  by_cases h15 : c = 'O'
  · subst h15; decide
  by_cases h16 : c = 'P'
  · subst h16; decide
  by_cases h17 : c = 'Q'
  · subst h17; decide
  by_cases h18 : c = 'R'
  · subst h18; decide
  by_cases h19 : c = 'S'
  · subst h19; decide
  by_cases h20 : c = 'T'
  · subst h20; decide
  by_cases h21 : c = 'U'
  · subst h21; decide
  by_cases h22 : c = 'V'
  · subst h22; decide
  by_cases h23 : c = 'W'
  · subst h23; decide
  by_cases h24 : c = 'X'
  · subst h24; decide
  by_cases h25 : c = 'Y'
  · subst h25; decide
  by_cases h26 : c = 'Z'
  · subst h26; decide
  have hc : lowerChar c = c := by
    simp [lowerChar, h1, h2, h3, h4, h5, h6, h7, h8, h9, h10, h11, h12, h13, h14, h15, h16, h17, h18, h19, h20, h21, h22, h23, h24, h25, h26]
  rw [hc, hc]

theorem wordChar_not_space (c : Char) (h : wordChar c = true) : pySpace c = false := by
  by_contra hne
  have hsp : pySpace c = true := by simpa using hne
  simp only [pySpace, Bool.or_eq_true, beq_iff_eq, or_assoc] at hsp
  rcases hsp with rfl | rfl | rfl | rfl | rfl | rfl <;> exact absurd h (by decide)

theorem takeWhile_word_append (w rest : List Char)
    (hw : ∀ c ∈ w, wordChar c = true)
    (hrest : ∀ c, rest.head? = some c → wordChar c = false) :
    (w ++ rest).takeWhile wordChar = w := by
  induction w with
  | nil =>
    cases rest with
    | nil => rfl
    | cons c cs =>
      simp only [List.nil_append]
      rw [List.takeWhile_cons_of_neg]
      simp [hrest c rfl]
  | cons a w' ih =>
    rw [List.cons_append, List.takeWhile_cons_of_pos (hw a (List.mem_cons_self a w')),
      ih (fun c hc => hw c (List.mem_cons_of_mem a hc))]

theorem dropWhile_word_append (w rest : List Char)
    (hw : ∀ c ∈ w, wordChar c = true)
    (hrest : ∀ c, rest.head? = some c → wordChar c = false) :
    (w ++ rest).dropWhile wordChar = rest := by
  induction w with
  | nil =>
    cases rest with
    | nil => rfl
    | cons c cs =>
      simp only [List.nil_append]
      rw [List.dropWhile_cons_of_neg]
      simp [hrest c rfl]
  | cons a w' ih =>
    rw [List.cons_append, List.dropWhile_cons_of_pos (hw a (List.mem_cons_self a w')),
      ih (fun c hc => hw c (List.mem_cons_of_mem a hc))]

theorem wordRuns_word_append (w rest : List Char) (hne : w ≠ [])
    (hw : ∀ c ∈ w, wordChar c = true)
    (hrest : ∀ c, rest.head? = some c → wordChar c = false) :
    wordRuns (w ++ rest) = w :: wordRuns rest := by
  cases w with
  | nil => exact absurd rfl hne
  | cons a w' =>
    rw [List.cons_append, wordRuns,
      if_pos (hw a (List.mem_cons_self a w')),
      takeWhile_word_append w' rest (fun c hc => hw c (List.mem_cons_of_mem a hc)) hrest,
      dropWhile_word_append w' rest (fun c hc => hw c (List.mem_cons_of_mem a hc)) hrest]

theorem wordRuns_space_cons (l : List Char) : wordRuns (' ' :: l) = wordRuns l := by
  rw [wordRuns, if_neg (by decide)]

theorem wordRuns_intercalate (ws : List (List Char))
    (h : ∀ w ∈ ws, w ≠ [] ∧ ∀ c ∈ w, wordChar c = true) :
    wordRuns (List.intercalate [' '] ws) = ws := by
  induction ws with
  | nil => simp [List.intercalate, wordRuns]
  | cons w ws' ih =>
    obtain ⟨hne, hw⟩ := h w (List.mem_cons_self w ws')
    cases ws' with
    | nil =>
      have : List.intercalate [' '] [w] = w := by
        simp [List.intercalate]
      rw [this, show w = w ++ ([] : List Char) by simp,
        wordRuns_word_append w [] hne hw (fun c hc => by cases hc)]
      simp [wordRuns]
    | cons y ys =>
      have hinter : List.intercalate [' '] (w :: y :: ys) =
          w ++ ' ' :: List.intercalate [' '] (y :: ys) := by
        simp [List.intercalate, List.intersperse]
      rw [hinter,
        wordRuns_word_append w (' ' :: List.intercalate [' '] (y :: ys)) hne hw
          (fun c hc => by injection hc with h'; rw [← h']; decide),
        wordRuns_space_cons,
        ih (fun v hv => h v (List.mem_cons_of_mem w hv))]

theorem wordRuns_members (text : List Char) :
    ∀ r ∈ wordRuns text, r ≠ [] ∧ ∀ c ∈ r, wordChar c = true := by
  generalize hn : text.length = n
  induction n using Nat.strong_induction_on generalizing text with
  | _ n ih =>
    cases text with
    | nil =>
      intro r hr
      rw [wordRuns] at hr
      cases hr
    | cons c cs =>
      by_cases hc : wordChar c = true
      · intro r hr
        rw [wordRuns, if_pos hc] at hr
        rcases List.mem_cons.mp hr with rfl | hm
        · refine ⟨by simp, ?_⟩
          intro d hd
          rcases List.mem_cons.mp hd with rfl | hd'
          · exact hc
          · exact List.mem_takeWhile_imp hd'
        · have hlen : (cs.dropWhile wordChar).length < n := by
            have hle : (cs.dropWhile wordChar).length ≤ cs.length :=
              (List.dropWhile_sublist wordChar).length_le
            simp only [List.length_cons] at hn
            omega
          exact ih (cs.dropWhile wordChar).length hlen _ rfl r hm
      · intro r hr
        rw [wordRuns, if_neg hc] at hr
        have hlen : cs.length < n := by
          simp only [List.length_cons] at hn
          omega
        exact ih cs.length hlen _ rfl r hr

theorem is_time_stamp_colon (l : List Char) (h : is_time_stamp l = true) :
    ':' ∈ l := by
  obtain ⟨hh, mm, ss, ms, rest, _, _, _, _, _, _, _, _, heq⟩ :=
    (is_time_stamp_iff l).mp h
  subst heq
  simp

theorem is_time_stamp_word (w : List Char) (hw : ∀ c ∈ w, wordChar c = true) :
    is_time_stamp w = false := by
  by_contra hne
  have h : is_time_stamp w = true := by simpa using hne
  exact absurd (hw ':' (is_time_stamp_colon w h)) (by decide)

theorem pyStrip_word (w : List Char) (hw : ∀ c ∈ w, wordChar c = true) :
    pyStrip w = w :=
  pyStrip_no_space w (fun c hc => wordChar_not_space c (hw c hc))

theorem pyLower_word (w : List Char) (hw : ∀ c ∈ w, wordChar c = true) :
    ∀ c ∈ pyLower w, wordChar c = true := by
  intro c hc
  obtain ⟨d, hd, rfl⟩ := List.mem_map.mp hc
  rw [lowerChar_wordChar]
  exact hw d hd

theorem has_no_text_pyLower (w : List Char) (hw : ∀ c ∈ w, wordChar c = true) :
    has_no_text (pyLower w) = has_no_text w := by
  have hw' := pyLower_word w hw
  simp only [has_no_text]
  rw [pyStrip_word _ hw', pyStrip_word _ hw,
    is_time_stamp_word _ hw', is_time_stamp_word _ hw]
  have him : (List.map lowerChar w).isEmpty = w.isEmpty := by cases w <;> rfl
  simp only [pyIsNumeric, pyLower, has_letters, List.all_map, List.any_map,
    Function.comp_def, lowerChar_isDigit, lowerChar_isAlpha, him]

/-- Claim C10: tokenization is idempotent on its own output.  For every
input text and every minimum word size, joining the token list produced by
`ScriptVocab.create_word_list_from_text` with single spaces and tokenizing
the joined string again with the same minimum word size yields the same
token sequence. -/
theorem create_word_list_from_text_idempotent (text : List Char) (m : Nat) :
    ScriptVocab.create_word_list_from_text
        (pyJoin (str " ") (ScriptVocab.create_word_list_from_text text m)) m =
      ScriptVocab.create_word_list_from_text text m := by
  have hsel : ∀ w ∈ (wordRuns text).filter
      (fun w => !ScriptVocab.has_no_text w && decide (m ≤ w.length)),
      w ≠ [] ∧ ∀ c ∈ w, wordChar c = true :=
    fun w hw => wordRuns_members text w (List.mem_filter.mp hw).1
  have hts : ∀ t ∈ ((wordRuns text).filter
      (fun w => !ScriptVocab.has_no_text w && decide (m ≤ w.length))).map pyLower,
      t ≠ [] ∧ ∀ c ∈ t, wordChar c = true := by
    intro t ht
    obtain ⟨w, hwmem, rfl⟩ := List.mem_map.mp ht
    obtain ⟨hne, hword⟩ := hsel w hwmem
    constructor
    · simpa [pyLower] using hne
    · exact pyLower_word w hword
  have hfilter : (((wordRuns text).filter
        (fun w => !ScriptVocab.has_no_text w && decide (m ≤ w.length))).map
          pyLower).filter
        (fun w => !ScriptVocab.has_no_text w && decide (m ≤ w.length)) =
      ((wordRuns text).filter
        (fun w => !ScriptVocab.has_no_text w && decide (m ≤ w.length))).map
          pyLower := by
    rw [List.filter_eq_self]
    intro t ht
    obtain ⟨w, hwmem, rfl⟩ := List.mem_map.mp ht
    obtain ⟨hne, hword⟩ := hsel w hwmem
    have hP := (List.mem_filter.mp hwmem).2
    rw [Bool.and_eq_true] at hP ⊢
    constructor
    · rw [show ScriptVocab.has_no_text (pyLower w) = has_no_text (pyLower w)
        from rfl, has_no_text_pyLower w hword]
      exact hP.1
    · simpa [pyLower] using hP.2
  have hpp : pyLower ∘ pyLower = pyLower := by
    funext x
    simp only [Function.comp_apply, pyLower, List.map_map]
    exact List.map_congr_left (fun c _ => lowerChar_idem c)
  simp only [ScriptVocab.create_word_list_from_text]
  rw [show str " " = [' '] from rfl]
  rw [show pyJoin [' '] (((wordRuns text).filter
      (fun w => !ScriptVocab.has_no_text w && decide (m ≤ w.length))).map pyLower) =
    List.intercalate [' '] (((wordRuns text).filter
      (fun w => !ScriptVocab.has_no_text w && decide (m ≤ w.length))).map pyLower)
    from rfl]
  rw [wordRuns_intercalate _ hts, hfilter, List.map_map, hpp]
